import Mathlib

/-
Verification of the client-side gameplay logic of the firebolt 3D-multiplayer
client (React + three.js + SpacetimeDB starter).  The definitions below are
shallow embeddings of the corresponding TypeScript functions:

  - App.tsx          : determineAnimation, sendInput, gameLoop
  - Player.tsx       : calculateClientMovement, the reconciliation pass of
                       useFrame, toggleCameraMode, the pointer-move handler,
                       playAnimation, the animation loop-mode setup and the
                       one-shot completion listener
  - GameScene.tsx    : the SmoothProjectile per-frame velocity/position update

Vector and quaternion operations are transcribed from three.js
(Vector3.normalize, Vector3.applyQuaternion, Vector3.angleTo, Vector3.lerp,
Quaternion.setFromAxisAngle, Quaternion.setFromEuler, Quaternion.slerp).
Floating-point numbers are modelled as real numbers; JS strings as String;
the intent sequence counter as a natural number.
-/

namespace Firebolt

/-! ## Input state (generated InputState type, App.tsx) -/

structure InputState where
  forward : Bool
  backward : Bool
  left : Bool
  right : Bool
  sprint : Bool
  jump : Bool
  attack : Bool
  castSpell : Bool
  sequence : Nat
deriving DecidableEq, Repr

/-! ## Animation selection from intent (App.tsx, determineAnimation) -/

def determineAnimation (input : InputState) : String :=
  if input.attack then "attack1"
  else if input.castSpell then "cast"
  else if input.jump then "jump"
  else
    let isMoving := input.forward || input.backward || input.left || input.right
    if !isMoving then "idle"
    else
      let direction :=
        if input.forward && !input.backward then "forward"
        else if input.backward && !input.forward then "back"
        else if input.left && !input.right then "left"
        else if input.right && !input.left then "right"
        else if input.forward && input.left then "left"
        else if input.forward && input.right then "right"
        else if input.backward && input.left then "left"
        else if input.backward && input.right then "right"
        else "forward"
      let moveType := if input.sprint then "run" else "walk"
      moveType ++ "-" ++ direction

/-- Input state holding exactly the given movement axes, nothing else. -/
def movementInput (f b l r s : Bool) : InputState :=
  { forward := f, backward := b, left := l, right := r, sprint := s,
    jump := false, attack := false, castSpell := false, sequence := 0 }

/-! ## Animation playback selection (Player.tsx, playAnimation and the
     server-animation trigger effect) -/

/-- The playAnimation callback (Player.tsx): result is the name of the action
that ends up playing (the new currentAnimation).  If the requested clip is not
loaded it falls back to idle when idle is loaded and the request was not
already idle; otherwise nothing changes. -/
def playAnimation (animations : List String) (currentAnimation : String)
    (name : String) : String :=
  if animations.contains name then name
  else if name != "idle" && animations.contains "idle" then "idle"
  else currentAnimation

/-- The server-animation trigger effect (Player.tsx): plays the snapshot
animation tag only when it is non-empty, differs from the current animation and
is among the loaded clips; otherwise the current animation is retained. -/
def serverAnimationTrigger (animations : List String) (currentAnimation : String)
    (serverAnim : String) : String :=
  if animations.isEmpty then currentAnimation
  else if serverAnim != "" && serverAnim != currentAnimation
      && animations.contains serverAnim then
    playAnimation animations currentAnimation serverAnim
  else currentAnimation

/-! ## Animation loop-mode configuration (Player.tsx, loadAnimationFile) -/

inductive LoopMode where
  | loopRepeat
  | loopOnce
deriving DecidableEq, Repr

/-- Kernel-reducible transcription of String.startsWith. -/
def strStartsWith (s p : String) : Bool :=
  p.data.isPrefixOf s.data

/-- Loop-mode setup applied to each loaded clip: looping clips get
LoopRepeat/Infinity, every other clip gets LoopOnce with clampWhenFinished
(the second component; three.js default is false). -/
def animationLoopSetup (name : String) : LoopMode × Bool :=
  if decide (name = "idle") || strStartsWith name "walk-" || strStartsWith name "run-" then
    (LoopMode.loopRepeat, false)
  else
    (LoopMode.loopOnce, true)

/-! ## One-shot completion listener (Player.tsx, the finished-event effect).
     The effect registers one listener for the tracked one-shot action; on a
     finished event for that action it plays idle with crossfade 0.1 and
     removes itself.  We model the stream of finished events as a list of
     action names and collect the playAnimation calls the listener makes. -/

def oneShotFinishedRuns (tracked : String) : Bool → List String → List (String × ℚ)
  | _, [] => []
  | false, _ :: es => oneShotFinishedRuns tracked false es
  | true, e :: es =>
    if e == tracked then ("idle", 1/10) :: oneShotFinishedRuns tracked false es
    else oneShotFinishedRuns tracked true es

/-- Default crossfade duration of playAnimation (Player.tsx). -/
def defaultCrossfade : ℚ := 3/10

/-! ## Outgoing input stream (App.tsx, sendInput and gameLoop) -/

structure SendLoopState where
  current : InputState
  lastSent : Option InputState
deriving DecidableEq, Repr

/-- The changed-fields scan of sendInput; the initial lastSentInputState is the
empty object (none), against which every field compares as changed. -/
def sendInputChanged (current : InputState) : Option InputState → Bool
  | none => true
  | some last =>
    (current.forward != last.forward) || (current.backward != last.backward) ||
    (current.left != last.left) || (current.right != last.right) ||
    (current.sprint != last.sprint) || (current.jump != last.jump) ||
    (current.attack != last.attack) || (current.castSpell != last.castSpell) ||
    (current.sequence != last.sequence)

/-- The transmission condition of sendInput: changed fields, or an advanced
sequence number. -/
def sendInputSends (current : InputState) : Option InputState → Bool
  | none => true
  | some last => sendInputChanged current (some last) || (current.sequence != last.sequence)

/-- sendInput: emits iff the condition holds, and then records the payload as
last sent.  Second component: whether a payload went out. -/
def sendInput (st : SendLoopState) : SendLoopState × Bool :=
  if sendInputSends st.current st.lastSent then
    ({ st with lastSent := some st.current }, true)
  else (st, false)

/-- One gameLoop iteration: increment the sequence number, then sendInput. -/
def gameLoopIteration (st : SendLoopState) : SendLoopState × Bool :=
  sendInput { st with current := { st.current with sequence := st.current.sequence + 1 } }

/-- Run the connected game loop over a list of per-frame input mutations (the
event handlers that may rewrite movement/action fields between frames); the
result records for each frame whether a payload was emitted. -/
def runGameLoop (st : SendLoopState) : List (InputState → InputState) → List Bool
  | [] => []
  | f :: fs =>
    let r := gameLoopIteration { st with current := f st.current }
    r.2 :: runGameLoop r.1 fs

/-- Invariant relating the last-sent payload to the live input record: either
nothing was sent yet, or the recorded sequence matches the live one (input
event handlers never touch the sequence field). -/
def SendLoopInv (st : SendLoopState) : Prop :=
  st.lastSent = none ∨ ∃ last, st.lastSent = some last ∧ last.sequence = st.current.sequence

/-! ## three.js Vector3 (transcribed operations used by Player.tsx and
     GameScene.tsx); floats are modelled as real numbers -/

structure Vec3 where
  x : ℝ
  y : ℝ
  z : ℝ

noncomputable section

instance : Add Vec3 := ⟨fun a b => ⟨a.x + b.x, a.y + b.y, a.z + b.z⟩⟩

instance : Sub Vec3 := ⟨fun a b => ⟨a.x - b.x, a.y - b.y, a.z - b.z⟩⟩

instance : SMul ℝ Vec3 := ⟨fun r a => ⟨r * a.x, r * a.y, r * a.z⟩⟩

instance : Zero Vec3 := ⟨⟨0, 0, 0⟩⟩

@[ext] lemma vec3_ext {a b : Vec3} (hx : a.x = b.x) (hy : a.y = b.y)
    (hz : a.z = b.z) : a = b := by
  cases a; cases b; simp_all

@[simp] lemma vec3_add_def (a b : Vec3) :
    a + b = ⟨a.x + b.x, a.y + b.y, a.z + b.z⟩ := rfl

@[simp] lemma vec3_sub_def (a b : Vec3) :
    a - b = ⟨a.x - b.x, a.y - b.y, a.z - b.z⟩ := rfl

@[simp] lemma vec3_smul_def (r : ℝ) (a : Vec3) :
    r • a = ⟨r * a.x, r * a.y, r * a.z⟩ := rfl

@[simp] lemma vec3_zero_def : (0 : Vec3) = ⟨0, 0, 0⟩ := rfl

/-- Vector3.dot -/
def dotV (a b : Vec3) : ℝ := a.x * b.x + a.y * b.y + a.z * b.z

/-- Vector3.lengthSq -/
def lengthSq (a : Vec3) : ℝ := a.x * a.x + a.y * a.y + a.z * a.z

/-- Vector3.length -/
def lengthV (a : Vec3) : ℝ := Real.sqrt (lengthSq a)

/-- Vector3.crossVectors -/
def crossV (a b : Vec3) : Vec3 :=
  ⟨a.y * b.z - a.z * b.y, a.z * b.x - a.x * b.z, a.x * b.y - a.y * b.x⟩

/-- Vector3.normalize: divideScalar(length || 1), so the zero vector
normalizes to itself. -/
def normalizeV (v : Vec3) : Vec3 :=
  (1 / (if lengthV v = 0 then 1 else lengthV v)) • v

/-- MathUtils.clamp -/
def clampR (v lo hi : ℝ) : ℝ := max lo (min hi v)

/-- Vector3.angleTo -/
def angleToV (a b : Vec3) : ℝ :=
  let denominator := Real.sqrt (lengthSq a * lengthSq b)
  if denominator = 0 then Real.pi / 2
  else Real.arccos (clampR (dotV a b / denominator) (-1) 1)

/-- Vector3.distanceToSquared -/
def distanceToSquared (a b : Vec3) : ℝ :=
  (a.x - b.x) * (a.x - b.x) + (a.y - b.y) * (a.y - b.y) + (a.z - b.z) * (a.z - b.z)

/-- Vector3.distanceTo -/
def distanceTo (a b : Vec3) : ℝ := Real.sqrt (distanceToSquared a b)

/-- Vector3.lerp: this.x += (v.x - this.x) * alpha, componentwise. -/
def lerpV (a b : Vec3) (alpha : ℝ) : Vec3 :=
  ⟨a.x + (b.x - a.x) * alpha, a.y + (b.y - a.y) * alpha, a.z + (b.z - a.z) * alpha⟩

/-! ## three.js Quaternion -/

structure Quat where
  qx : ℝ
  qy : ℝ
  qz : ℝ
  qw : ℝ

/-- Quaternion.setFromAxisAngle (axis assumed normalized by the caller). -/
def quatFromAxisAngle (axis : Vec3) (angle : ℝ) : Quat :=
  let halfAngle := angle / 2
  let s := Real.sin halfAngle
  ⟨axis.x * s, axis.y * s, axis.z * s, Real.cos halfAngle⟩

/-- Vector3.applyQuaternion, exact component formulas. -/
def applyQuaternion (q : Quat) (v : Vec3) : Vec3 :=
  let tx := 2 * (q.qy * v.z - q.qz * v.y)
  let ty := 2 * (q.qz * v.x - q.qx * v.z)
  let tz := 2 * (q.qx * v.y - q.qy * v.x)
  ⟨v.x + q.qw * tx + q.qy * tz - q.qz * ty,
   v.y + q.qw * ty + q.qz * tx - q.qx * tz,
   v.z + q.qw * tz + q.qx * ty - q.qy * tx⟩

/-- Vector3.applyAxisAngle -/
def applyAxisAngle (v axis : Vec3) (angle : ℝ) : Vec3 :=
  applyQuaternion (quatFromAxisAngle axis angle) v

/-- Quaternion.dot -/
def quatDot (a b : Quat) : ℝ := a.qx * b.qx + a.qy * b.qy + a.qz * b.qz + a.qw * b.qw

/-- Quaternion.angleTo -/
def quatAngleTo (a b : Quat) : ℝ :=
  2 * Real.arccos |clampR (quatDot a b) (-1) 1|

/-- Quaternion.setFromEuler, case YXZ. -/
def quatFromEulerYXZ (ex ey ez : ℝ) : Quat :=
  let c1 := Real.cos (ex / 2)
  let c2 := Real.cos (ey / 2)
  let c3 := Real.cos (ez / 2)
  let s1 := Real.sin (ex / 2)
  let s2 := Real.sin (ey / 2)
  let s3 := Real.sin (ez / 2)
  ⟨s1 * c2 * c3 + c1 * s2 * s3,
   c1 * s2 * c3 - s1 * c2 * s3,
   c1 * c2 * s3 - s1 * s2 * c3,
   c1 * c2 * c3 + s1 * s2 * s3⟩

/-- Quaternion.length -/
def quatLength (q : Quat) : ℝ := Real.sqrt (quatDot q q)

/-- Quaternion.normalize -/
def quatNormalize (q : Quat) : Quat :=
  let l := quatLength q
  if l = 0 then ⟨0, 0, 0, 1⟩
  else ⟨q.qx * (1 / l), q.qy * (1 / l), q.qz * (1 / l), q.qw * (1 / l)⟩

/-- Math.atan2 on reals. -/
def atan2R (y x : ℝ) : ℝ :=
  if 0 < x then Real.arctan (y / x)
  else if x < 0 then
    (if 0 ≤ y then Real.arctan (y / x) + Real.pi else Real.arctan (y / x) - Real.pi)
  else
    (if 0 < y then Real.pi / 2 else if y < 0 then -(Real.pi / 2) else 0)

/-- Number.EPSILON -/
def numberEpsilon : ℝ := 2 ^ (-52 : ℤ)

/-- Quaternion.slerp (three.js), with the shortest-path sign flip, the
coincident shortcut, the near-parallel linear fallback and the general
sin-ratio blend. -/
def quatSlerp (qa qb : Quat) (t : ℝ) : Quat :=
  if t = 0 then qa
  else if t = 1 then qb
  else
    let cosHalfTheta0 := quatDot qa qb
    let qbAdj : Quat := if cosHalfTheta0 < 0 then ⟨-qb.qx, -qb.qy, -qb.qz, -qb.qw⟩ else qb
    let cosHalfTheta := if cosHalfTheta0 < 0 then -cosHalfTheta0 else cosHalfTheta0
    if 1 ≤ cosHalfTheta then qa
    else
      let sqrSinHalfTheta := 1 - cosHalfTheta * cosHalfTheta
      if sqrSinHalfTheta ≤ numberEpsilon then
        let s := 1 - t
        quatNormalize ⟨s * qa.qx + t * qbAdj.qx, s * qa.qy + t * qbAdj.qy,
          s * qa.qz + t * qbAdj.qz, s * qa.qw + t * qbAdj.qw⟩
      else
        let sinHalfTheta := Real.sqrt sqrSinHalfTheta
        let halfTheta := atan2R sinHalfTheta cosHalfTheta
        let ratioA := Real.sin ((1 - t) * halfTheta) / sinHalfTheta
        let ratioB := Real.sin (t * halfTheta) / sinHalfTheta
        ⟨qa.qx * ratioA + qbAdj.qx * ratioB, qa.qy * ratioA + qbAdj.qy * ratioB,
         qa.qz * ratioA + qbAdj.qz * ratioB, qa.qw * ratioA + qbAdj.qw * ratioB⟩

/-! ## Client-side constants (Player.tsx) -/

def PLAYER_SPEED : ℝ := 5.0

def SPRINT_MULTIPLIER : ℝ := 1.8

def SERVER_TICK_DELTA : ℝ := 1 / 60

def POSITION_RECONCILE_THRESHOLD : ℝ := 0.4

def ROTATION_RECONCILE_THRESHOLD : ℝ := 0.1

def RECONCILE_LERP_FACTOR : ℝ := 0.15

inductive CameraMode where
  | follow
  | orbital
deriving DecidableEq

/-! ## Client-side movement prediction (Player.tsx, calculateClientMovement).
     The current rotation argument is its yaw component (the rotation ref is
     yaw-only); the frozen yaw is orbitalCameraRef.playerFacingRotation. -/

def calculateClientMovement (cameraMode : CameraMode) (currentPos : Vec3)
    (currentRotY frozenYaw : ℝ) (inputState : InputState) (delta : ℝ) : Vec3 :=
  if !inputState.forward && !inputState.backward && !inputState.left && !inputState.right
  then currentPos
  else
    let speed := if inputState.sprint then PLAYER_SPEED * SPRINT_MULTIPLIER else PLAYER_SPEED
    let localMoveX : ℝ :=
      if cameraMode = CameraMode.orbital then
        (if inputState.left then 1 else 0) + (if inputState.right then -1 else 0)
      else
        (if inputState.left then -1 else 0) + (if inputState.right then 1 else 0)
    let localMoveZ : ℝ :=
      if cameraMode = CameraMode.orbital then
        (if inputState.forward then 1 else 0) + (if inputState.backward then -1 else 0)
      else
        (if inputState.forward then -1 else 0) + (if inputState.backward then 1 else 0)
    let localMoveVector : Vec3 := ⟨localMoveX, 0, localMoveZ⟩
    let localMoveVector :=
      if lengthSq localMoveVector > 1.1 then normalizeV localMoveVector else localMoveVector
    let rotationYaw := if cameraMode = CameraMode.follow then currentRotY else frozenYaw
    let worldMoveVector := applyAxisAngle localMoveVector ⟨0, 1, 0⟩ rotationYaw
    let worldMoveVector := (speed * delta) • worldMoveVector
    currentPos + worldMoveVector

/-! ## Reconciliation pass of useFrame (Player.tsx) -/

/-- Positional reconciliation: compare the local prediction against the
sign-unflipped server position; when the error exceeds the threshold and the
camera is not Orbital, lerp toward the (flipped) server position. -/
def reconcilePosition (cameraMode : CameraMode) (localPos serverPos : Vec3) : Vec3 :=
  let unflippedServerPosition : Vec3 := ⟨serverPos.x * -1, serverPos.y, serverPos.z * -1⟩
  let positionError := distanceTo localPos unflippedServerPosition
  if positionError > POSITION_RECONCILE_THRESHOLD then
    if cameraMode ≠ CameraMode.orbital then lerpV localPos serverPos RECONCILE_LERP_FACTOR
    else localPos
  else localPos

/-- Rotation reconciliation (camera-mode independent): quaternion distance to
the server yaw, slerp by the fixed factor when above the angular threshold.
The result is the new local orientation as a quaternion. -/
def reconcileRotation (localRotY serverRotY : ℝ) : Quat :=
  let reconcileTargetQuat := quatFromEulerYXZ 0 serverRotY 0
  let currentQuat := quatFromEulerYXZ 0 localRotY 0
  let rotationError := quatAngleTo currentQuat reconcileTargetQuat
  if rotationError > ROTATION_RECONCILE_THRESHOLD then
    quatSlerp currentQuat reconcileTargetQuat RECONCILE_LERP_FACTOR
  else currentQuat

/-- The whole reconciliation pass of one frame: position then rotation. -/
def frameReconcile (cameraMode : CameraMode) (localPos : Vec3) (localRotY : ℝ)
    (serverPos : Vec3) (serverRotY : ℝ) : Vec3 × Quat :=
  (reconcilePosition cameraMode localPos serverPos, reconcileRotation localRotY serverRotY)

/-! ## Camera mode state machine (Player.tsx, toggleCameraMode and the
     pointer-move handler) -/

structure OrbitalCameraState where
  distance : ℝ
  angle : ℝ
  elevation : ℝ
  playerFacingRotation : ℝ

structure PlayerCameraState where
  cameraMode : CameraMode
  localRotY : ℝ
  orbital : OrbitalCameraState

/-- JS truncation toward zero. -/
def realTrunc (r : ℝ) : ℝ := if 0 ≤ r then (⌊r⌋ : ℤ) else (⌈r⌉ : ℤ)

/-- JS remainder operator (sign of the dividend). -/
def jsMod (n m : ℝ) : ℝ := n - m * realTrunc (n / m)

/-- THREE.MathUtils.euclideanModulo -/
def euclideanModulo (n m : ℝ) : ℝ := jsMod (jsMod n m + m) m

/-- toggleCameraMode: flip the mode; on entry into Orbital, freeze the current
local yaw as playerFacingRotation, start the orbital angle there and reset the
elevation to pi/6. -/
def toggleCameraMode (st : PlayerCameraState) : PlayerCameraState :=
  let newMode := if st.cameraMode = CameraMode.follow then CameraMode.orbital
    else CameraMode.follow
  if newMode = CameraMode.orbital then
    { st with
      cameraMode := newMode
      orbital := { st.orbital with
                   playerFacingRotation := st.localRotY
                   angle := st.localRotY
                   elevation := Real.pi / 6 } }
  else { st with cameraMode := newMode }

/-- The pointer-move handler: in Follow mode it turns the player yaw (wrapped
to [-pi, pi]); in Orbital mode it only moves the orbital camera angle and the
clamped elevation. -/
def handleMouseMove (isPointerLocked : Bool) (movementX movementY : ℝ)
    (st : PlayerCameraState) : PlayerCameraState :=
  if !isPointerLocked then st
  else if st.cameraMode = CameraMode.follow then
    let y := st.localRotY - movementX * 0.003
    { st with localRotY := euclideanModulo (y + Real.pi) (2 * Real.pi) - Real.pi }
  else
    let angle := st.orbital.angle - movementX * 0.005
    let elevation := st.orbital.elevation + movementY * 0.005
    let elevation := max (Real.pi / 12) (min (Real.pi / 2.1) elevation)
    { st with orbital := { st.orbital with angle := angle, elevation := elevation } }

/-- The yaw basis consumed by the motion prediction step (step 2 of
calculateClientMovement): live yaw in Follow, frozen yaw in Orbital. -/
def movementBasisYaw (st : PlayerCameraState) : ℝ :=
  if st.cameraMode = CameraMode.follow then st.localRotY
  else st.orbital.playerFacingRotation

/-- Process a sequence of pointer-move events (lock flag, movementX,
movementY). -/
def applyPointerMoves (st : PlayerCameraState) :
    List (Bool × ℝ × ℝ) → PlayerCameraState
  | [] => st
  | (lk, dx, dy) :: ms => applyPointerMoves (handleMouseMove lk dx dy st) ms

/-! ## Projectile update (GameScene.tsx, SmoothProjectile useFrame body).
     Each frame with a resolved target: steer the velocity toward the unit
     vector to the target, limited to maxTurnRate x delta of angular change;
     without a target, fly straight (initializing to (0,0,speed) if needed);
     then integrate position from the updated velocity. -/

def maxTurnRate : ℝ := 2.0

/-- Velocity update of a frame in which a target player exists. -/
def projectileVelocityUpdate (speed delta : ℝ)
    (targetPos currentPos velocity : Vec3) : Vec3 :=
  let toTarget := normalizeV (targetPos - currentPos)
  if lengthV velocity = 0 then speed • toTarget
  else
    let currentDir := normalizeV velocity
    let angle := angleToV currentDir toTarget
    let maxAngleThisFrame := maxTurnRate * delta
    if angle > maxAngleThisFrame then
      let axis := normalizeV (crossV currentDir toTarget)
      let newDir := applyQuaternion (quatFromAxisAngle axis maxAngleThisFrame) currentDir
      speed • newDir
    else speed • toTarget

/-- Velocity update of a frame with no target: straight-line flight, default
heading (0, 0, speed) on first initialization. -/
def projectileStraightVelocity (speed : ℝ) (velocity : Vec3) : Vec3 :=
  if lengthV velocity = 0 then ⟨0, 0, speed⟩ else velocity

/-- Position integration from the frame velocity: movement = velocity x delta. -/
def projectilePositionUpdate (currentPos velocity : Vec3) (delta : ℝ) : Vec3 :=
  currentPos + delta • velocity

end

/-! ## Support lemmas -/

lemma distanceToSquared_nonneg (a b : Vec3) : 0 ≤ distanceToSquared a b := by
  unfold distanceToSquared
  nlinarith [mul_self_nonneg (a.x - b.x), mul_self_nonneg (a.y - b.y),
    mul_self_nonneg (a.z - b.z)]

lemma distanceTo_nonneg (a b : Vec3) : 0 ≤ distanceTo a b :=
  Real.sqrt_nonneg _

lemma lerp_reconcile_sub (l s : Vec3) :
    lerpV l s RECONCILE_LERP_FACTOR - s = (17/20 : ℝ) • (l - s) := by
  ext <;> norm_num [lerpV, RECONCILE_LERP_FACTOR] <;> ring

lemma lerp_reconcile_distanceToSquared (l s : Vec3) :
    distanceToSquared (lerpV l s RECONCILE_LERP_FACTOR) s
      = (17/20) ^ 2 * distanceToSquared l s := by
  norm_num [lerpV, RECONCILE_LERP_FACTOR, distanceToSquared]
  ring

lemma lerp_reconcile_distanceTo (l s : Vec3) :
    distanceTo (lerpV l s RECONCILE_LERP_FACTOR) s = (17/20) * distanceTo l s := by
  unfold distanceTo
  rw [lerp_reconcile_distanceToSquared,
    Real.sqrt_mul (by positivity) (distanceToSquared l s), Real.sqrt_sq (by norm_num)]

/-! ## Theorems -/

lemma oneShotFinishedRuns_false (tracked : String) (es : List String) :
    oneShotFinishedRuns tracked false es = [] := by
  induction es with
  | nil => rfl
  | cons e es ih => simpa [oneShotFinishedRuns] using ih

lemma sendLoop_step (st : SendLoopState) (hinv : SendLoopInv st) :
    (gameLoopIteration st).2 = true ∧
    SendLoopInv (gameLoopIteration st).1 ∧
    (gameLoopIteration st).1.current.sequence = st.current.sequence + 1 := by
  rcases hinv with h | ⟨last, hlast, hseq⟩
  · simp [gameLoopIteration, sendInput, sendInputSends, h, SendLoopInv]
  · have hsend : sendInputSends
        { st.current with sequence := st.current.sequence + 1 } st.lastSent = true := by
      rw [hlast]
      simp [sendInputSends, hseq]
    simp [gameLoopIteration, sendInput, hsend, SendLoopInv]

lemma runGameLoop_all_true (st : SendLoopState) (hinv : SendLoopInv st)
    (fs : List (InputState → InputState))
    (hfs : ∀ f ∈ fs, ∀ i, (f i).sequence = i.sequence) :
    runGameLoop st fs = List.replicate fs.length true := by
  induction fs generalizing st with
  | nil => rfl
  | cons f fs ih =>
    have hf : (f st.current).sequence = st.current.sequence :=
      hfs f (List.mem_cons_self f fs) st.current
    have hinv1 : SendLoopInv { st with current := f st.current } := by
      rcases hinv with h | ⟨last, hlast, hseq⟩
      · exact Or.inl h
      · exact Or.inr ⟨last, hlast, by rw [hseq, ← hf]⟩
    obtain ⟨hsent, hinv2, _⟩ := sendLoop_step _ hinv1
    have ih2 := ih _ hinv2 (fun g hg => hfs g (List.mem_cons_of_mem f hg))
    simp [runGameLoop, hsent, ih2, List.replicate]

/-- C1: the claimed diagonal tie-break table (forward+left chooses left,
forward+right chooses right, ...) fails on the code: with forward and left both
held (and nothing else), the first branch of the priority chain fires and the
derived animation is walk-forward, not walk-left. -/
theorem determineAnimation_diagonal_counterexample :
    determineAnimation (movementInput true false true false false) = "walk-forward" ∧
    "walk-forward" ≠ "walk-left" := by
  constructor
  · rfl
  · decide

/-- C1 (amended): a diagonal input resolves to exactly one of the two
contributing directions, but by primary-axis priority rather than the claimed
table: forward+left and forward+right resolve to forward, backward+left and
backward+right resolve to back, with sprint mapping walk to run; never both
directions, never neither. -/
theorem determineAnimation_diagonal_tiebreak (s : Bool) :
    determineAnimation (movementInput true false true false s)
      = (if s then "run-forward" else "walk-forward") ∧
    determineAnimation (movementInput true false false true s)
      = (if s then "run-forward" else "walk-forward") ∧
    determineAnimation (movementInput false true true false s)
      = (if s then "run-back" else "walk-back") ∧
    determineAnimation (movementInput false true false true s)
      = (if s then "run-back" else "walk-back") := by
  cases s <;> refine ⟨rfl, rfl, rfl, rfl⟩

/-- C6: the claim that an unknown snapshot animation tag makes the selector
fall back to idle fails on the code: the trigger effect requires the tag to be
among the loaded clips before it plays anything, so an unknown tag leaves the
current animation playing.  Concretely, with idle and walk-forward loaded,
current animation walk-forward and snapshot tag fly, the played animation stays
walk-forward, which is not idle. -/
theorem serverAnimationTrigger_counterexample :
    serverAnimationTrigger ["idle", "walk-forward"] "walk-forward" "fly"
      = "walk-forward" ∧
    "walk-forward" ≠ "idle" := by
  constructor
  · rfl
  · decide

/-- C6 (amended): whenever the snapshot animation tag names a clip that is not
among the loaded animations, the trigger effect retains the current animation
unchanged (the request is simply ignored; being a total function, it never
throws); a direct playAnimation call for a missing non-idle clip with idle
loaded is what falls back to idle. -/
theorem serverAnimationTrigger_unknown_clip (animations : List String)
    (cur tag : String) (h : animations.contains tag = false) :
    serverAnimationTrigger animations cur tag = cur ∧
    (tag ≠ "idle" → animations.contains "idle" = true →
      playAnimation animations cur tag = "idle") := by
  have h2 : tag ∉ animations := by simpa using h
  constructor
  · unfold serverAnimationTrigger
    cases he : animations.isEmpty
    · simp [he, h2]
    · simp [he]
  · intro hne hidle
    have hidle2 : "idle" ∈ animations := by simpa using hidle
    unfold playAnimation
    simp [h2, hidle2, hne]

theorem serverAnimationTrigger_unknown_clip_witness :
    serverAnimationTrigger ["idle", "walk-forward"] "run-back" "fly" = "run-back" ∧
    (("fly" : String) ≠ "idle" →
      (["idle", "walk-forward"] : List String).contains "idle" = true →
      playAnimation ["idle", "walk-forward"] "run-back" "fly" = "idle") :=
  serverAnimationTrigger_unknown_clip ["idle", "walk-forward"] "run-back" "fly" (by decide)

/-- C9: every connected game-loop iteration bumps the sequence number by
exactly one before sending, so the changed-fields dedup in sendInput never
suppresses a transmission: a payload goes out on every frame, whatever the
input event handlers did to the other fields in between. -/
theorem gameLoop_sends_every_frame (st : SendLoopState) (hinv : SendLoopInv st)
    (fs : List (InputState → InputState))
    (hfs : ∀ f ∈ fs, ∀ i, (f i).sequence = i.sequence) :
    runGameLoop st fs = List.replicate fs.length true ∧
    (gameLoopIteration st).1.current.sequence = st.current.sequence + 1 ∧
    (gameLoopIteration st).2 = true := by
  obtain ⟨hsent, _, hseq⟩ := sendLoop_step st hinv
  exact ⟨runGameLoop_all_true st hinv fs hfs, hseq, hsent⟩

theorem gameLoop_sends_every_frame_witness :
    runGameLoop ⟨movementInput false false false false false, none⟩
        [fun i => i, fun i => { i with forward := true }]
      = List.replicate 2 true := by
  have h := gameLoop_sends_every_frame
    ⟨movementInput false false false false false, none⟩ (Or.inl rfl)
    [fun i => i, fun i => { i with forward := true }]
    (by
      intro f hf i
      fin_cases hf <;> rfl)
  exact h.1

/-- C7: one-shot animations (jump, attack, cast) are configured LoopOnce with
clampWhenFinished, idle and every walk- and run- variant loop forever; starting
from a registered completion listener, any stream of finished events triggers
the transition back to idle exactly once if the tracked action finishes (and
never otherwise), each time with crossfade 0.1, faster than the 0.3 default. -/
theorem oneShot_completion_policy :
    animationLoopSetup "jump" = (LoopMode.loopOnce, true) ∧
    animationLoopSetup "attack1" = (LoopMode.loopOnce, true) ∧
    animationLoopSetup "cast" = (LoopMode.loopOnce, true) ∧
    animationLoopSetup "idle" = (LoopMode.loopRepeat, false) ∧
    animationLoopSetup "walk-forward" = (LoopMode.loopRepeat, false) ∧
    animationLoopSetup "walk-back" = (LoopMode.loopRepeat, false) ∧
    animationLoopSetup "walk-left" = (LoopMode.loopRepeat, false) ∧
    animationLoopSetup "walk-right" = (LoopMode.loopRepeat, false) ∧
    animationLoopSetup "run-forward" = (LoopMode.loopRepeat, false) ∧
    animationLoopSetup "run-back" = (LoopMode.loopRepeat, false) ∧
    animationLoopSetup "run-left" = (LoopMode.loopRepeat, false) ∧
    animationLoopSetup "run-right" = (LoopMode.loopRepeat, false) ∧
    (∀ (tracked : String) (events : List String),
      oneShotFinishedRuns tracked true events =
        if events.contains tracked then [("idle", (1/10 : ℚ))] else []) ∧
    (1/10 : ℚ) < defaultCrossfade := by
  refine ⟨by decide, by decide, by decide, by decide, by decide, by decide,
    by decide, by decide, by decide, by decide, by decide, by decide, ?_,
    by norm_num [defaultCrossfade]⟩
  intro tracked events
  induction events with
  | nil => rfl
  | cons e es ih =>
    by_cases he : e = tracked
    · simp [oneShotFinishedRuns, he, oneShotFinishedRuns_false]
    · have he2 : ¬tracked = e := fun hh => he hh.symm
      simp [oneShotFinishedRuns, he, ih, List.contains_cons, he2]

lemma reconcilePosition_lerp_of_gate (cameraMode : CameraMode)
    (localPos serverPos : Vec3) (hmode : cameraMode ≠ CameraMode.orbital)
    (hgate : distanceTo localPos ⟨serverPos.x * -1, serverPos.y, serverPos.z * -1⟩
      > POSITION_RECONCILE_THRESHOLD) :
    reconcilePosition cameraMode localPos serverPos
      = lerpV localPos serverPos RECONCILE_LERP_FACTOR := by
  unfold reconcilePosition
  rw [if_pos hgate, if_pos hmode]

lemma reconcilePosition_monotone (m : CameraMode) (l s : Vec3) :
    distanceTo (reconcilePosition m l s) s ≤ distanceTo l s := by
  unfold reconcilePosition
  by_cases hgate : distanceTo l ⟨s.x * -1, s.y, s.z * -1⟩ > POSITION_RECONCILE_THRESHOLD
  · rw [if_pos hgate]
    by_cases hm : m ≠ CameraMode.orbital
    · rw [if_pos hm, lerp_reconcile_distanceTo]
      nlinarith [distanceTo_nonneg l s]
    · rw [if_neg hm]
  · rw [if_neg hgate]

/-- C2: one positional reconciliation lerp (factor 0.15) moves the prediction
strictly closer to the authoritative position but never onto or past it (the
new offset is exactly 17/20 of the old one); across any frames with constant
snapshot the distance to the target never increases; and in the concrete
scenario local (10.6,0,10) against snapshot (10,0,10) outside Orbital mode,
one step lands on (10.51,0,10): strictly closer, not equal. -/
theorem reconcile_lerp_no_overshoot (cameraMode : CameraMode)
    (localPos serverPos : Vec3) (hmode : cameraMode ≠ CameraMode.orbital)
    (hgate : distanceTo localPos ⟨serverPos.x * -1, serverPos.y, serverPos.z * -1⟩
      > POSITION_RECONCILE_THRESHOLD)
    (hfar : distanceTo localPos serverPos > POSITION_RECONCILE_THRESHOLD) :
    reconcilePosition cameraMode localPos serverPos - serverPos
        = (17/20 : ℝ) • (localPos - serverPos) ∧
    distanceTo (reconcilePosition cameraMode localPos serverPos) serverPos
        = (17/20) * distanceTo localPos serverPos ∧
    distanceTo (reconcilePosition cameraMode localPos serverPos) serverPos
        < distanceTo localPos serverPos ∧
    0 < distanceTo (reconcilePosition cameraMode localPos serverPos) serverPos ∧
    (∀ (m : CameraMode) (l s : Vec3),
        distanceTo (reconcilePosition m l s) s ≤ distanceTo l s) ∧
    reconcilePosition CameraMode.follow ⟨10.6, 0, 10⟩ ⟨10, 0, 10⟩ = ⟨10.51, 0, 10⟩ ∧
    distanceTo ⟨10.51, 0, 10⟩ ⟨10, 0, 10⟩ < distanceTo ⟨10.6, 0, 10⟩ ⟨10, 0, 10⟩ ∧
    (⟨10.51, 0, 10⟩ : Vec3) ≠ ⟨10, 0, 10⟩ := by
  have hstep := reconcilePosition_lerp_of_gate cameraMode localPos serverPos hmode hgate
  have hdistpos : 0 < distanceTo localPos serverPos := by
    have : (0 : ℝ) < POSITION_RECONCILE_THRESHOLD := by norm_num [POSITION_RECONCILE_THRESHOLD]
    linarith
  refine ⟨?_, ?_, ?_, ?_, reconcilePosition_monotone, ?_, ?_, ?_⟩
  · rw [hstep]; exact lerp_reconcile_sub localPos serverPos
  · rw [hstep]; exact lerp_reconcile_distanceTo localPos serverPos
  · rw [hstep, lerp_reconcile_distanceTo]; nlinarith
  · rw [hstep, lerp_reconcile_distanceTo]; nlinarith
  · have hg2 : distanceTo (⟨10.6, 0, 10⟩ : Vec3)
        ⟨(10 : ℝ) * -1, (0 : ℝ), (10 : ℝ) * -1⟩ > POSITION_RECONCILE_THRESHOLD := by
      rw [gt_iff_lt, POSITION_RECONCILE_THRESHOLD, distanceTo,
        Real.lt_sqrt (by norm_num)]
      norm_num [distanceToSquared]
    have := reconcilePosition_lerp_of_gate CameraMode.follow ⟨10.6, 0, 10⟩ ⟨10, 0, 10⟩
      (by decide) hg2
    rw [this]
    ext <;> norm_num [lerpV, RECONCILE_LERP_FACTOR]
  · unfold distanceTo
    apply Real.sqrt_lt_sqrt (distanceToSquared_nonneg _ _)
    norm_num [distanceToSquared]
  · intro hcontra
    have := congrArg Vec3.x hcontra
    norm_num at this

theorem reconcile_lerp_no_overshoot_witness :
    reconcilePosition CameraMode.follow ⟨10.6, 0, 10⟩ ⟨10, 0, 10⟩ - ⟨10, 0, 10⟩
        = (17/20 : ℝ) • ((⟨10.6, 0, 10⟩ : Vec3) - ⟨10, 0, 10⟩) ∧
    distanceTo (reconcilePosition CameraMode.follow ⟨10.6, 0, 10⟩ ⟨10, 0, 10⟩) ⟨10, 0, 10⟩
        = (17/20) * distanceTo ⟨10.6, 0, 10⟩ ⟨10, 0, 10⟩ ∧
    distanceTo (reconcilePosition CameraMode.follow ⟨10.6, 0, 10⟩ ⟨10, 0, 10⟩) ⟨10, 0, 10⟩
        < distanceTo ⟨10.6, 0, 10⟩ ⟨10, 0, 10⟩ ∧
    0 < distanceTo (reconcilePosition CameraMode.follow ⟨10.6, 0, 10⟩ ⟨10, 0, 10⟩) ⟨10, 0, 10⟩ ∧
    (∀ (m : CameraMode) (l s : Vec3),
        distanceTo (reconcilePosition m l s) s ≤ distanceTo l s) ∧
    reconcilePosition CameraMode.follow ⟨10.6, 0, 10⟩ ⟨10, 0, 10⟩ = ⟨10.51, 0, 10⟩ ∧
    distanceTo ⟨10.51, 0, 10⟩ ⟨10, 0, 10⟩ < distanceTo ⟨10.6, 0, 10⟩ ⟨10, 0, 10⟩ ∧
    (⟨10.51, 0, 10⟩ : Vec3) ≠ ⟨10, 0, 10⟩ :=
  reconcile_lerp_no_overshoot CameraMode.follow ⟨10.6, 0, 10⟩ ⟨10, 0, 10⟩
    (by decide)
    (by
      rw [gt_iff_lt, POSITION_RECONCILE_THRESHOLD, distanceTo, Real.lt_sqrt (by norm_num)]
      norm_num [distanceToSquared])
    (by
      rw [gt_iff_lt, POSITION_RECONCILE_THRESHOLD, distanceTo, Real.lt_sqrt (by norm_num)]
      norm_num [distanceToSquared])

/-- C5: while the camera is in Orbital mode the positional reconciliation step
returns the predicted local position unchanged even when the position error
exceeds the reconcile threshold, while the rotation reconciliation result is
computed exactly as in Follow mode. -/
theorem orbital_suppresses_position_reconcile (localPos serverPos : Vec3)
    (localRotY serverRotY : ℝ)
    (hgate : distanceTo localPos ⟨serverPos.x * -1, serverPos.y, serverPos.z * -1⟩
      > POSITION_RECONCILE_THRESHOLD) :
    (frameReconcile CameraMode.orbital localPos localRotY serverPos serverRotY).1
        = localPos ∧
    (frameReconcile CameraMode.orbital localPos localRotY serverPos serverRotY).2
        = reconcileRotation localRotY serverRotY ∧
    (frameReconcile CameraMode.orbital localPos localRotY serverPos serverRotY).2
        = (frameReconcile CameraMode.follow localPos localRotY serverPos serverRotY).2 := by
  refine ⟨?_, rfl, rfl⟩
  show reconcilePosition CameraMode.orbital localPos serverPos = localPos
  unfold reconcilePosition
  rw [if_pos hgate, if_neg (by simp)]

theorem orbital_suppresses_position_reconcile_witness :
    (frameReconcile CameraMode.orbital ⟨0, 0, 0⟩ 0 ⟨10, 0, 10⟩ 1).1 = ⟨0, 0, 0⟩ ∧
    (frameReconcile CameraMode.orbital ⟨0, 0, 0⟩ 0 ⟨10, 0, 10⟩ 1).2
        = reconcileRotation 0 1 ∧
    (frameReconcile CameraMode.orbital ⟨0, 0, 0⟩ 0 ⟨10, 0, 10⟩ 1).2
        = (frameReconcile CameraMode.follow ⟨0, 0, 0⟩ 0 ⟨10, 0, 10⟩ 1).2 :=
  orbital_suppresses_position_reconcile ⟨0, 0, 0⟩ ⟨10, 0, 10⟩ 0 1
    (by
      rw [gt_iff_lt, POSITION_RECONCILE_THRESHOLD, distanceTo, Real.lt_sqrt (by norm_num)]
      norm_num [distanceToSquared])

/-- C8: with only forward and sprint held, camera Follow and yaw 0, one
prediction step at the fixed server tick delta displaces the position by
exactly (0, 0, -speed x sprintMultiplier x delta), the forward-is-negative-Z
convention. -/
theorem forward_sprint_tick_displacement (pos : Vec3) (frozenYaw : ℝ) :
    calculateClientMovement CameraMode.follow pos 0 frozenYaw
        (movementInput true false false false true) SERVER_TICK_DELTA
      = pos + ⟨0, 0, -(PLAYER_SPEED * SPRINT_MULTIPLIER * SERVER_TICK_DELTA)⟩ := by
  have hne : (CameraMode.follow = CameraMode.orbital) = False := by
    simp
  ext <;>
    norm_num [calculateClientMovement, movementInput, applyAxisAngle, quatFromAxisAngle,
      applyQuaternion, lengthSq, hne, PLAYER_SPEED, SPRINT_MULTIPLIER, SERVER_TICK_DELTA]

lemma applyPointerMoves_orbital_inv (moves : List (Bool × ℝ × ℝ)) :
    ∀ st : PlayerCameraState, st.cameraMode = CameraMode.orbital →
      (applyPointerMoves st moves).cameraMode = CameraMode.orbital ∧
      (applyPointerMoves st moves).orbital.playerFacingRotation
        = st.orbital.playerFacingRotation ∧
      (applyPointerMoves st moves).localRotY = st.localRotY := by
  induction moves with
  | nil => exact fun st h => ⟨h, rfl, rfl⟩
  | cons m ms ih =>
    intro st h
    obtain ⟨lk, dx, dy⟩ := m
    have key : (handleMouseMove lk dx dy st).cameraMode = CameraMode.orbital ∧
        (handleMouseMove lk dx dy st).orbital.playerFacingRotation
          = st.orbital.playerFacingRotation ∧
        (handleMouseMove lk dx dy st).localRotY = st.localRotY := by
      cases lk <;> simp [handleMouseMove, h]
    have hrec := ih (handleMouseMove lk dx dy st) key.1
    refine ⟨hrec.1, ?_, ?_⟩
    · rw [show applyPointerMoves st ((lk, dx, dy) :: ms)
          = applyPointerMoves (handleMouseMove lk dx dy st) ms from rfl,
        hrec.2.1, key.2.1]
    · rw [show applyPointerMoves st ((lk, dx, dy) :: ms)
          = applyPointerMoves (handleMouseMove lk dx dy st) ms from rfl,
        hrec.2.2, key.2.2]

/-- C4: toggling into Orbital mode freezes the then-current local yaw as the
frozen yaw, initializes the orbital angle to it and resets elevation to pi/6;
after any sequence of pointer-move events processed while in Orbital mode, the
movement-basis yaw consumed by the motion prediction step is still the yaw at
entry, and the prediction step computes exactly what it computed at entry. -/
theorem orbital_entry_freezes_movement_yaw (st : PlayerCameraState)
    (h : st.cameraMode = CameraMode.follow) (moves : List (Bool × ℝ × ℝ)) :
    (toggleCameraMode st).cameraMode = CameraMode.orbital ∧
    (toggleCameraMode st).orbital.playerFacingRotation = st.localRotY ∧
    (toggleCameraMode st).orbital.angle = st.localRotY ∧
    (toggleCameraMode st).orbital.elevation = Real.pi / 6 ∧
    movementBasisYaw (applyPointerMoves (toggleCameraMode st) moves) = st.localRotY ∧
    (∀ (pos : Vec3) (inp : InputState) (delta : ℝ),
      calculateClientMovement
          (applyPointerMoves (toggleCameraMode st) moves).cameraMode pos
          (applyPointerMoves (toggleCameraMode st) moves).localRotY
          (applyPointerMoves (toggleCameraMode st) moves).orbital.playerFacingRotation
          inp delta
        = calculateClientMovement CameraMode.orbital pos st.localRotY st.localRotY
            inp delta) := by
  have htog : (toggleCameraMode st).cameraMode = CameraMode.orbital ∧
      (toggleCameraMode st).orbital.playerFacingRotation = st.localRotY ∧
      (toggleCameraMode st).orbital.angle = st.localRotY ∧
      (toggleCameraMode st).orbital.elevation = Real.pi / 6 ∧
      (toggleCameraMode st).localRotY = st.localRotY := by
    simp [toggleCameraMode, h]
  obtain ⟨h1, h2, h3, h4, h5⟩ := htog
  obtain ⟨g1, g2, g3⟩ := applyPointerMoves_orbital_inv moves (toggleCameraMode st) h1
  refine ⟨h1, h2, h3, h4, ?_, ?_⟩
  · rw [movementBasisYaw, if_neg (by rw [g1]; simp), g2, h2]
  · intro pos inp delta
    rw [g1, g2, g3, h2, h5]

theorem orbital_entry_freezes_movement_yaw_witness :
    (toggleCameraMode ⟨CameraMode.follow, 0, ⟨8, 0, Real.pi / 6, 0⟩⟩).cameraMode
        = CameraMode.orbital ∧
    (toggleCameraMode ⟨CameraMode.follow, 0, ⟨8, 0, Real.pi / 6, 0⟩⟩).orbital.playerFacingRotation = 0 ∧
    (toggleCameraMode ⟨CameraMode.follow, 0, ⟨8, 0, Real.pi / 6, 0⟩⟩).orbital.angle = 0 ∧
    (toggleCameraMode ⟨CameraMode.follow, 0, ⟨8, 0, Real.pi / 6, 0⟩⟩).orbital.elevation
        = Real.pi / 6 ∧
    movementBasisYaw (applyPointerMoves
        (toggleCameraMode ⟨CameraMode.follow, 0, ⟨8, 0, Real.pi / 6, 0⟩⟩)
        [(true, 1, 1), (true, -2, 3)]) = 0 ∧
    (∀ (pos : Vec3) (inp : InputState) (delta : ℝ),
      calculateClientMovement
          (applyPointerMoves (toggleCameraMode ⟨CameraMode.follow, 0, ⟨8, 0, Real.pi / 6, 0⟩⟩)
            [(true, 1, 1), (true, -2, 3)]).cameraMode pos
          (applyPointerMoves (toggleCameraMode ⟨CameraMode.follow, 0, ⟨8, 0, Real.pi / 6, 0⟩⟩)
            [(true, 1, 1), (true, -2, 3)]).localRotY
          (applyPointerMoves (toggleCameraMode ⟨CameraMode.follow, 0, ⟨8, 0, Real.pi / 6, 0⟩⟩)
            [(true, 1, 1), (true, -2, 3)]).orbital.playerFacingRotation
          inp delta
        = calculateClientMovement CameraMode.orbital pos 0 0 inp delta) :=
  orbital_entry_freezes_movement_yaw ⟨CameraMode.follow, 0, ⟨8, 0, Real.pi / 6, 0⟩⟩
    rfl [(true, 1, 1), (true, -2, 3)]

/-! ## Vector algebra support lemmas for the projectile theorems -/

lemma lengthSq_nonneg (a : Vec3) : 0 ≤ lengthSq a := by
  unfold lengthSq
  nlinarith [mul_self_nonneg a.x, mul_self_nonneg a.y, mul_self_nonneg a.z]

lemma lengthV_nonneg (a : Vec3) : 0 ≤ lengthV a := Real.sqrt_nonneg _

lemma lengthV_eq_zero_iff (a : Vec3) : lengthV a = 0 ↔ lengthSq a = 0 := by
  unfold lengthV
  rw [Real.sqrt_eq_zero']
  exact ⟨fun h => le_antisymm h (lengthSq_nonneg a), fun h => le_of_eq h⟩

lemma lengthSq_eq_zero_iff (a : Vec3) : lengthSq a = 0 ↔ a = 0 := by
  constructor
  · intro h
    have hx : a.x * a.x = 0 := by
      unfold lengthSq at h
      nlinarith [mul_self_nonneg a.x, mul_self_nonneg a.y, mul_self_nonneg a.z]
    have hy : a.y * a.y = 0 := by
      unfold lengthSq at h
      nlinarith [mul_self_nonneg a.x, mul_self_nonneg a.y, mul_self_nonneg a.z]
    have hz : a.z * a.z = 0 := by
      unfold lengthSq at h
      nlinarith [mul_self_nonneg a.x, mul_self_nonneg a.y, mul_self_nonneg a.z]
    ext
    · exact mul_self_eq_zero.mp hx
    · exact mul_self_eq_zero.mp hy
    · exact mul_self_eq_zero.mp hz
  · intro h
    rw [h]
    show (0 : ℝ) * 0 + 0 * 0 + 0 * 0 = 0
    norm_num

lemma lengthV_ne_zero_of_ne (a : Vec3) (h : a ≠ 0) : lengthV a ≠ 0 := by
  intro hl
  exact h ((lengthSq_eq_zero_iff a).mp ((lengthV_eq_zero_iff a).mp hl))

lemma lengthV_pos_of_ne_zero (a : Vec3) (h : lengthV a ≠ 0) : 0 < lengthV a :=
  lt_of_le_of_ne (lengthV_nonneg a) (Ne.symm h)

lemma lengthSq_smul (r : ℝ) (a : Vec3) : lengthSq (r • a) = r ^ 2 * lengthSq a := by
  simp only [vec3_smul_def, lengthSq]
  ring

lemma dotV_smul_right (a b : Vec3) (r : ℝ) : dotV a (r • b) = r * dotV a b := by
  simp only [vec3_smul_def, dotV]
  ring

lemma dotV_smul_left (a b : Vec3) (r : ℝ) : dotV (r • a) b = r * dotV a b := by
  simp only [vec3_smul_def, dotV]
  ring

lemma smul_smul_vec (r s : ℝ) (a : Vec3) : r • (s • a) = (r * s) • a := by
  ext <;> simp <;> ring

lemma normalizeV_of_ne_zero (v : Vec3) (hv : lengthV v ≠ 0) :
    normalizeV v = (1 / lengthV v) • v := by
  unfold normalizeV
  rw [if_neg hv]

lemma normalizeV_zero_vec : normalizeV 0 = 0 := by
  ext <;> simp [normalizeV]

lemma lengthSq_eq_sq_lengthV (v : Vec3) : lengthSq v = lengthV v ^ 2 := by
  rw [lengthV, Real.sq_sqrt (lengthSq_nonneg v)]

lemma lengthSq_normalizeV (v : Vec3) (hv : lengthV v ≠ 0) :
    lengthSq (normalizeV v) = 1 := by
  rw [normalizeV_of_ne_zero v hv, lengthSq_smul, lengthSq_eq_sq_lengthV,
    div_pow, one_pow]
  field_simp

lemma smul_lengthV_normalizeV (v : Vec3) (hv : lengthV v ≠ 0) :
    lengthV v • normalizeV v = v := by
  rw [normalizeV_of_ne_zero v hv]
  ext <;> simp <;> field_simp

lemma dotV_cross_left_self (a b : Vec3) : dotV (crossV a b) a = 0 := by
  simp only [crossV, dotV]
  ring

lemma dotV_self_cross (a v : Vec3) : dotV v (crossV a v) = 0 := by
  simp only [crossV, dotV]
  ring

lemma dotV_self_eq_lengthSq (v : Vec3) : dotV v v = lengthSq v := rfl

lemma lengthSq_cross (a b : Vec3) :
    lengthSq (crossV a b) = lengthSq a * lengthSq b - dotV a b ^ 2 := by
  simp only [crossV, dotV, lengthSq]
  ring

lemma cross_cross_self (a v : Vec3) :
    crossV a (crossV a v) = dotV a v • a - lengthSq a • v := by
  ext <;> simp [crossV, dotV, lengthSq] <;> ring

lemma lengthSq_two_smul_add (r t : ℝ) (u w : Vec3) :
    lengthSq (r • u + t • w)
      = r ^ 2 * lengthSq u + 2 * r * t * dotV u w + t ^ 2 * lengthSq w := by
  simp only [vec3_smul_def, vec3_add_def, lengthSq, dotV]
  ring

lemma dotV_add_right (a u w : Vec3) : dotV a (u + w) = dotV a u + dotV a w := by
  simp only [vec3_add_def, dotV]
  ring

/-! ## Rotation and angle lemmas -/

lemma applyQuaternion_axis_angle (a : Vec3) (t : ℝ) (v : Vec3) :
    applyQuaternion (quatFromAxisAngle a t) v
      = v + (2 * Real.sin (t / 2) * Real.cos (t / 2)) • crossV a v
          + (2 * Real.sin (t / 2) ^ 2) • crossV a (crossV a v) := by
  ext <;> simp [applyQuaternion, quatFromAxisAngle, crossV] <;> ring

lemma applyQuaternion_zero_axis (t : ℝ) (v : Vec3) :
    applyQuaternion (quatFromAxisAngle 0 t) v = v := by
  ext <;> simp [applyQuaternion, quatFromAxisAngle]

lemma sin_eq_two_mul_half (t : ℝ) :
    Real.sin t = 2 * Real.sin (t / 2) * Real.cos (t / 2) := by
  have h := Real.sin_two_mul (t / 2)
  rw [show 2 * (t / 2) = t by ring] at h
  linarith

lemma cos_eq_one_sub_two_half_sq (t : ℝ) :
    Real.cos t = 1 - 2 * Real.sin (t / 2) ^ 2 := by
  have h1 := Real.cos_two_mul (t / 2)
  have h2 := Real.sin_sq_add_cos_sq (t / 2)
  rw [show 2 * (t / 2) = t by ring] at h1
  linarith

/-- Rodrigues form of the axis-angle rotation for a unit axis orthogonal to a
unit vector. -/
lemma rotated_direction (a v : Vec3) (t : ℝ) (ha : lengthSq a = 1)
    (horth : dotV a v = 0) :
    applyQuaternion (quatFromAxisAngle a t) v
      = Real.cos t • v + Real.sin t • crossV a v := by
  have hsin := sin_eq_two_mul_half t
  have hcos := cos_eq_one_sub_two_half_sq t
  rw [applyQuaternion_axis_angle, cross_cross_self, horth, ha]
  ext
  · simp only [vec3_smul_def, vec3_add_def, vec3_sub_def]
    linear_combination (-(v.x)) * hcos + (-((crossV a v).x)) * hsin
  · simp only [vec3_smul_def, vec3_add_def, vec3_sub_def]
    linear_combination (-(v.y)) * hcos + (-((crossV a v).y)) * hsin
  · simp only [vec3_smul_def, vec3_add_def, vec3_sub_def]
    linear_combination (-(v.z)) * hcos + (-((crossV a v).z)) * hsin

lemma dotV_rotated (a v : Vec3) (t : ℝ) (hv : lengthSq v = 1) :
    dotV v (Real.cos t • v + Real.sin t • crossV a v) = Real.cos t := by
  rw [dotV_add_right, dotV_smul_right, dotV_smul_right, dotV_self_eq_lengthSq, hv,
    dotV_self_cross]
  ring

lemma lengthSq_rotated (a v : Vec3) (t : ℝ) (ha : lengthSq a = 1)
    (hv : lengthSq v = 1) (horth : dotV a v = 0) :
    lengthSq (Real.cos t • v + Real.sin t • crossV a v) = 1 := by
  rw [lengthSq_two_smul_add, hv, dotV_self_cross, lengthSq_cross, ha, hv, horth]
  have h := Real.sin_sq_add_cos_sq t
  nlinarith [h]

lemma angleToV_le_pi (a b : Vec3) : angleToV a b ≤ Real.pi := by
  unfold angleToV
  by_cases h : Real.sqrt (lengthSq a * lengthSq b) = 0
  · rw [if_pos h]
    linarith [Real.pi_pos]
  · rw [if_neg h]
    exact Real.arccos_le_pi _

lemma angleToV_smul_right (a w : Vec3) (r : ℝ) (hr : 0 < r) :
    angleToV a (r • w) = angleToV a w := by
  unfold angleToV
  have hls : lengthSq a * lengthSq (r • w) = r ^ 2 * (lengthSq a * lengthSq w) := by
    rw [lengthSq_smul]
    ring
  have hsq : Real.sqrt (lengthSq a * lengthSq (r • w))
      = r * Real.sqrt (lengthSq a * lengthSq w) := by
    rw [hls, Real.sqrt_mul (sq_nonneg r), Real.sqrt_sq hr.le]
  by_cases h : Real.sqrt (lengthSq a * lengthSq w) = 0
  · rw [hsq, h, mul_zero]
    simp
  · have hden : r * Real.sqrt (lengthSq a * lengthSq w) ≠ 0 :=
      mul_ne_zero (ne_of_gt hr) h
    rw [hsq, if_neg hden, if_neg h, dotV_smul_right]
    congr 1
    rw [mul_div_mul_left _ _ (ne_of_gt hr)]

lemma angleToV_smul_left (a w : Vec3) (r : ℝ) (hr : 0 < r) :
    angleToV (r • a) w = angleToV a w := by
  unfold angleToV
  have hls : lengthSq (r • a) * lengthSq w = r ^ 2 * (lengthSq a * lengthSq w) := by
    rw [lengthSq_smul]
    ring
  have hsq : Real.sqrt (lengthSq (r • a) * lengthSq w)
      = r * Real.sqrt (lengthSq a * lengthSq w) := by
    rw [hls, Real.sqrt_mul (sq_nonneg r), Real.sqrt_sq hr.le]
  by_cases h : Real.sqrt (lengthSq a * lengthSq w) = 0
  · rw [hsq, h, mul_zero]
    simp
  · have hden : r * Real.sqrt (lengthSq a * lengthSq w) ≠ 0 :=
      mul_ne_zero (ne_of_gt hr) h
    rw [hsq, if_neg hden, if_neg h, dotV_smul_left]
    congr 1
    rw [mul_div_mul_left _ _ (ne_of_gt hr)]

lemma angleToV_normalizeV_left (v b : Vec3) (hv : lengthV v ≠ 0) :
    angleToV (normalizeV v) b = angleToV v b := by
  rw [normalizeV_of_ne_zero v hv]
  exact angleToV_smul_left v b _ (one_div_pos.mpr (lengthV_pos_of_ne_zero v hv))

lemma clampR_of_le (v lo hi : ℝ) (h1 : lo ≤ v) (h2 : v ≤ hi) : clampR v lo hi = v := by
  unfold clampR
  rw [min_eq_right h2, max_eq_right h1]

lemma angleToV_self (v : Vec3) (hv : lengthV v ≠ 0) : angleToV v v = 0 := by
  unfold angleToV
  have hL : lengthSq v ≠ 0 := fun h => hv ((lengthV_eq_zero_iff v).mpr h)
  have hden : Real.sqrt (lengthSq v * lengthSq v) = lengthSq v :=
    Real.sqrt_mul_self (lengthSq_nonneg v)
  rw [hden, if_neg hL, dotV_self_eq_lengthSq, div_self hL,
    clampR_of_le 1 (-1) 1 (by norm_num) le_rfl, Real.arccos_one]

lemma angleToV_smul_self (v : Vec3) (r : ℝ) (hv : lengthV v ≠ 0) (hr : 0 < r) :
    angleToV v (r • v) = 0 := by
  rw [angleToV_smul_right v v r hr]
  exact angleToV_self v hv

/-- The angle of a computed frame step between two unit vectors, read off the
arccos of their dot product. -/
lemma angleToV_of_units (d w : Vec3) (hd : lengthSq d = 1) (hw : lengthSq w = 1) :
    angleToV d w = Real.arccos (clampR (dotV d w) (-1) 1) := by
  unfold angleToV
  rw [hd, hw]
  norm_num

lemma lengthV_smul_unit (r : ℝ) (u : Vec3) (hu : lengthSq u = 1) (hr : 0 ≤ r) :
    lengthV (r • u) = r := by
  rw [lengthV, lengthSq_smul, hu, mul_one, Real.sqrt_sq hr]

lemma lengthV_zero_vec : lengthV 0 = 0 := by
  rw [lengthV_eq_zero_iff, lengthSq_eq_zero_iff]

lemma projectileVelocityUpdate_eq (speed delta : ℝ)
    (targetPos currentPos velocity : Vec3) (hvel : lengthV velocity ≠ 0) :
    projectileVelocityUpdate speed delta targetPos currentPos velocity
      = (if angleToV (normalizeV velocity) (normalizeV (targetPos - currentPos))
            > maxTurnRate * delta
         then speed • applyQuaternion
            (quatFromAxisAngle
              (normalizeV (crossV (normalizeV velocity)
                (normalizeV (targetPos - currentPos))))
              (maxTurnRate * delta))
            (normalizeV velocity)
         else speed • normalizeV (targetPos - currentPos)) := by
  simp only [projectileVelocityUpdate]
  rw [if_neg hvel]

lemma maxTurn_nonneg (delta : ℝ) (hdelta : 0 ≤ delta) : 0 ≤ maxTurnRate * delta := by
  have : (0 : ℝ) ≤ maxTurnRate := by norm_num [maxTurnRate]
  exact mul_nonneg this hdelta

/-- C3: in a frame with a target and a non-zero velocity, the angle between
the velocity direction before and after the homing update never exceeds
maxTurnRate x delta; and when the angle to the target direction is already
within that bound, the velocity is set exactly onto the target direction. -/
theorem projectile_turn_rate_bound (speed delta : ℝ)
    (targetPos currentPos velocity : Vec3)
    (hspeed : 0 < speed) (hdelta : 0 ≤ delta) (hvel : velocity ≠ 0)
    (htarget : targetPos - currentPos ≠ 0) :
    angleToV velocity (projectileVelocityUpdate speed delta targetPos currentPos velocity)
      ≤ maxTurnRate * delta ∧
    (angleToV (normalizeV velocity) (normalizeV (targetPos - currentPos))
        ≤ maxTurnRate * delta →
      projectileVelocityUpdate speed delta targetPos currentPos velocity
        = speed • normalizeV (targetPos - currentPos)) := by
  have hvl : lengthV velocity ≠ 0 := lengthV_ne_zero_of_ne velocity hvel
  have htl : lengthV (targetPos - currentPos) ≠ 0 := lengthV_ne_zero_of_ne _ htarget
  have hlpos : 0 < lengthV velocity := lengthV_pos_of_ne_zero velocity hvl
  have hd1 : lengthSq (normalizeV velocity) = 1 := lengthSq_normalizeV velocity hvl
  have ht1 : lengthSq (normalizeV (targetPos - currentPos)) = 1 := lengthSq_normalizeV _ htl
  have hupd := projectileVelocityUpdate_eq speed delta targetPos currentPos velocity hvl
  by_cases hbr : angleToV (normalizeV velocity) (normalizeV (targetPos - currentPos))
      > maxTurnRate * delta
  · rw [hupd, if_pos hbr]
    refine ⟨?_, fun h => absurd hbr (not_lt.mpr h)⟩
    by_cases hC : crossV (normalizeV velocity) (normalizeV (targetPos - currentPos)) = 0
    · rw [hC, normalizeV_zero_vec, applyQuaternion_zero_axis]
      have hmix : speed • normalizeV velocity
          = (speed * (1 / lengthV velocity)) • velocity := by
        rw [normalizeV_of_ne_zero velocity hvl, smul_smul_vec]
      rw [hmix, angleToV_smul_self velocity _ hvl
        (by positivity)]
      exact maxTurn_nonneg delta hdelta
    · have hCl : lengthV (crossV (normalizeV velocity)
          (normalizeV (targetPos - currentPos))) ≠ 0 :=
        lengthV_ne_zero_of_ne _ hC
      have ha1 : lengthSq (normalizeV (crossV (normalizeV velocity)
          (normalizeV (targetPos - currentPos)))) = 1 :=
        lengthSq_normalizeV _ hCl
      have horthd : dotV (normalizeV (crossV (normalizeV velocity)
          (normalizeV (targetPos - currentPos)))) (normalizeV velocity) = 0 := by
        rw [normalizeV_of_ne_zero _ hCl, dotV_smul_left, dotV_cross_left_self]
        ring
      rw [rotated_direction _ _ _ ha1 horthd]
      have hnew1 : lengthSq (Real.cos (maxTurnRate * delta) • normalizeV velocity
          + Real.sin (maxTurnRate * delta) • crossV
            (normalizeV (crossV (normalizeV velocity)
              (normalizeV (targetPos - currentPos)))) (normalizeV velocity)) = 1 :=
        lengthSq_rotated _ _ _ ha1 hd1 horthd
      rw [angleToV_smul_right _ _ _ hspeed, ← angleToV_normalizeV_left _ _ hvl,
        angleToV_of_units _ _ hd1 hnew1, dotV_rotated _ _ _ hd1,
        clampR_of_le _ _ _ (Real.neg_one_le_cos _) (Real.cos_le_one _),
        Real.arccos_cos (maxTurn_nonneg delta hdelta)
          (le_trans (le_of_lt hbr) (angleToV_le_pi _ _))]
  · rw [hupd, if_neg hbr]
    refine ⟨?_, fun _ => rfl⟩
    rw [angleToV_smul_right _ _ _ hspeed, ← angleToV_normalizeV_left _ _ hvl]
    exact not_lt.mp hbr

theorem projectile_turn_rate_bound_witness :
    angleToV ⟨0, 0, 15⟩ (projectileVelocityUpdate 15 (1/60) ⟨1, 0, 0⟩ ⟨0, 0, 0⟩ ⟨0, 0, 15⟩)
      ≤ maxTurnRate * (1/60) ∧
    (angleToV (normalizeV ⟨0, 0, 15⟩) (normalizeV ((⟨1, 0, 0⟩ : Vec3) - ⟨0, 0, 0⟩))
        ≤ maxTurnRate * (1/60) →
      projectileVelocityUpdate 15 (1/60) ⟨1, 0, 0⟩ ⟨0, 0, 0⟩ ⟨0, 0, 15⟩
        = (15 : ℝ) • normalizeV ((⟨1, 0, 0⟩ : Vec3) - ⟨0, 0, 0⟩)) :=
  projectile_turn_rate_bound 15 (1/60) ⟨1, 0, 0⟩ ⟨0, 0, 0⟩ ⟨0, 0, 15⟩
    (by norm_num) (by norm_num)
    (by
      intro h
      simp only [vec3_sub_def, vec3_zero_def, Vec3.mk.injEq] at h
      norm_num at h)
    (by
      intro h
      simp only [vec3_sub_def, vec3_zero_def, Vec3.mk.injEq] at h
      norm_num at h)

/-- C10: once initialized, the projectile velocity magnitude equals its speed
after every targeted homing update (only the direction changes); the first
initialization points at the target when one exists (magnitude speed) and
defaults to (0,0,speed) without one, after which the no-target update leaves
the velocity untouched; and each frame the position advances by exactly
velocity x delta, a pure function of the locally owned kinematic state. -/
theorem projectile_speed_magnitude_invariant (speed delta : ℝ)
    (targetPos currentPos velocity : Vec3) (hspeed : 0 < speed)
    (htarget : targetPos - currentPos ≠ 0) :
    (lengthV velocity = speed →
      lengthV (projectileVelocityUpdate speed delta targetPos currentPos velocity)
        = speed) ∧
    (velocity = 0 →
      projectileVelocityUpdate speed delta targetPos currentPos velocity
          = speed • normalizeV (targetPos - currentPos) ∧
      lengthV (speed • normalizeV (targetPos - currentPos)) = speed) ∧
    (∀ w : Vec3, w ≠ 0 → projectileStraightVelocity speed w = w) ∧
    projectileStraightVelocity speed 0 = ⟨0, 0, speed⟩ ∧
    (∀ (p w : Vec3) (dt : ℝ), projectilePositionUpdate p w dt = p + dt • w) := by
  have htl : lengthV (targetPos - currentPos) ≠ 0 := lengthV_ne_zero_of_ne _ htarget
  have ht1 : lengthSq (normalizeV (targetPos - currentPos)) = 1 := lengthSq_normalizeV _ htl
  refine ⟨?_, ?_, ?_, ?_, fun p w dt => rfl⟩
  · intro hl
    have hvl : lengthV velocity ≠ 0 := by rw [hl]; exact ne_of_gt hspeed
    have hd1 : lengthSq (normalizeV velocity) = 1 := lengthSq_normalizeV velocity hvl
    rw [projectileVelocityUpdate_eq speed delta targetPos currentPos velocity hvl]
    by_cases hbr : angleToV (normalizeV velocity) (normalizeV (targetPos - currentPos))
        > maxTurnRate * delta
    · rw [if_pos hbr]
      by_cases hC : crossV (normalizeV velocity) (normalizeV (targetPos - currentPos)) = 0
      · rw [hC, normalizeV_zero_vec, applyQuaternion_zero_axis]
        exact lengthV_smul_unit speed _ hd1 hspeed.le
      · have hCl : lengthV (crossV (normalizeV velocity)
            (normalizeV (targetPos - currentPos))) ≠ 0 :=
          lengthV_ne_zero_of_ne _ hC
        have ha1 : lengthSq (normalizeV (crossV (normalizeV velocity)
            (normalizeV (targetPos - currentPos)))) = 1 :=
          lengthSq_normalizeV _ hCl
        have horthd : dotV (normalizeV (crossV (normalizeV velocity)
            (normalizeV (targetPos - currentPos)))) (normalizeV velocity) = 0 := by
          rw [normalizeV_of_ne_zero _ hCl, dotV_smul_left, dotV_cross_left_self]
          ring
        rw [rotated_direction _ _ _ ha1 horthd]
        exact lengthV_smul_unit speed _ (lengthSq_rotated _ _ _ ha1 hd1 horthd) hspeed.le
    · rw [if_neg hbr]
      exact lengthV_smul_unit speed _ ht1 hspeed.le
  · intro h0
    have hl0 : lengthV velocity = 0 := by rw [h0]; exact lengthV_zero_vec
    constructor
    · simp only [projectileVelocityUpdate]
      rw [if_pos hl0]
    · exact lengthV_smul_unit speed _ ht1 hspeed.le
  · intro w hw
    unfold projectileStraightVelocity
    rw [if_neg (lengthV_ne_zero_of_ne w hw)]
  · unfold projectileStraightVelocity
    rw [if_pos lengthV_zero_vec]

theorem projectile_speed_magnitude_invariant_witness :
    (lengthV ⟨3, 0, 4⟩ = 5 →
      lengthV (projectileVelocityUpdate 5 (1/30) ⟨0, 2, 0⟩ ⟨0, 0, 0⟩ ⟨3, 0, 4⟩) = 5) ∧
    ((⟨3, 0, 4⟩ : Vec3) = 0 →
      projectileVelocityUpdate 5 (1/30) ⟨0, 2, 0⟩ ⟨0, 0, 0⟩ ⟨3, 0, 4⟩
          = (5 : ℝ) • normalizeV ((⟨0, 2, 0⟩ : Vec3) - ⟨0, 0, 0⟩) ∧
      lengthV ((5 : ℝ) • normalizeV ((⟨0, 2, 0⟩ : Vec3) - ⟨0, 0, 0⟩)) = 5) ∧
    (∀ w : Vec3, w ≠ 0 → projectileStraightVelocity 5 w = w) ∧
    projectileStraightVelocity 5 0 = ⟨0, 0, 5⟩ ∧
    (∀ (p w : Vec3) (dt : ℝ), projectilePositionUpdate p w dt = p + dt • w) :=
  projectile_speed_magnitude_invariant 5 (1/30) ⟨0, 2, 0⟩ ⟨0, 0, 0⟩ ⟨3, 0, 4⟩
    (by norm_num)
    (by
      intro h
      simp only [vec3_sub_def, vec3_zero_def, Vec3.mk.injEq] at h
      norm_num at h)

end Firebolt
